import Mathlib

/-!
Shallow embedding of `src/process_voc_dataset/range_dataset_ui.py`,
class `FileProcessingThread`, method `run` (the dataset-normalization
pipeline).  Directories are modelled as association lists from filename
to content; annotation-file content either parses to a record (the
`<filename>`/`<path>` fields plus the untouched remainder) or is
malformed (carrying the parse error's message).  Progress signals, log
lines and the accumulated error list are tracked explicitly in the run
state.  File paths are POSIX style (`os.path.join` as `dir ++ "/" ++ name`),
matching the `os.path.normpath`-ed directories of the source.
-/

namespace RangeDataset

/-- Python `str.lower()` restricted to the ASCII case mapping used by the
filenames this tool handles (`Char.toLower`). -/
def pyLower (s : String) : String :=
  String.mk (s.data.map Char.toLower)

/-- Suffix test on strings, Python `str.endswith`. -/
def strEndsWith (s suffix : String) : Bool :=
  List.isSuffixOf suffix.data s.data

/-- Index of the last `'.'` in a character list, if any. -/
def lastDotIndex : List Char → Option Nat
  | [] => none
  | c :: cs =>
    match lastDotIndex cs with
    | some i => some (i + 1)
    | none => if c = '.' then some 0 else none

/-- The extension component `os.path.splitext(name)[1]` for a bare
filename (no path separators, as returned by `os.listdir`): the part
from the last dot on, except that a name whose characters before the
last dot are all dots (for instance `".jpg"` or `"..jpg"`) has no
extension, per CPython's `genericpath._splitext`. -/
def splitextExt (name : String) : String :=
  match lastDotIndex name.data with
  | none => ""
  | some i =>
    if (name.data.take i).all (fun c => c = '.') then ""
    else String.mk (name.data.drop i)

/-- The accepted image extensions, `self.allowedImgExts = {'.jpg', '.jpeg', '.png'}`. -/
def allowedImgExts : List String := [".jpg", ".jpeg", ".png"]

/-- Filter for the annotation directory listing:
`f.lower().endswith('.xml')`. -/
def annFilter (f : String) : Bool :=
  strEndsWith (pyLower f) ".xml"

/-- Filter for the image directory listing:
`os.path.splitext(f)[1].lower() in self.allowedImgExts`. -/
def imgFilter (f : String) : Bool :=
  allowedImgExts.contains (pyLower (splitextExt f))

/-- Codepoint-lexicographic comparison on character lists, the order
Python's `sorted` uses on `str`. -/
def listCharLe : List Char → List Char → Bool
  | [], _ => true
  | _ :: _, [] => false
  | a :: as, b :: bs =>
    if a = b then listCharLe as bs else decide (a.toNat < b.toNat)

/-- Codepoint-lexicographic comparison on strings. -/
def strLe (a b : String) : Bool :=
  listCharLe a.data b.data

/-- Insert a string into a list sorted by `strLe`, keeping it sorted. -/
def insertSorted (x : String) : List String → List String
  | [] => [x]
  | y :: ys => if strLe x y then x :: y :: ys else y :: insertSorted x ys

/-- Python `sorted` on a list of strings (stable insertion sort under
the codepoint-lexicographic order). -/
def sortStr : List String → List String
  | [] => []
  | x :: xs => insertSorted x (sortStr xs)

/-- Python `enumerate(l, n)`. -/
def enumerateFrom (n : Nat) : List α → List (Nat × α)
  | [] => []
  | x :: xs => (n, x) :: enumerateFrom (n + 1) xs

/-- Python `sep.join(l)`. -/
def pyJoin (sep : String) : List String → String
  | [] => ""
  | [x] => x
  | x :: y :: ys => x ++ sep ++ pyJoin sep (y :: ys)

/-- Model of `os.path.join` for a normalized POSIX directory and a bare filename. -/
def pathJoin (d f : String) : String := d ++ "/" ++ f

/-- A directory: an association list from filename to file content.
Real directories have pairwise distinct names; lookups take the first
binding. -/
abbrev Dir (α : Type) := List (String × α)

/-- Content lookup by filename. -/
def dirLookup (d : Dir α) (k : String) : Option α :=
  match d with
  | [] => none
  | (k', v) :: rest => if k' = k then some v else dirLookup rest k

/-- Model of `os.path.exists` inside one directory. -/
def dirHas (d : Dir α) (k : String) : Bool :=
  (dirLookup d k).isSome

/-- Model of `os.remove`: drop every binding with the given filename. -/
def dirRemove (d : Dir α) (k : String) : Dir α :=
  d.filter (fun p => !(p.1 = k : Bool))

/-- Overwrite the content stored under an existing filename
(`tree.write(annPath, ...)` on a file that was just parsed). -/
def dirUpdate (d : Dir α) (k : String) (v : α) : Dir α :=
  d.map (fun p => if p.1 = k then (k, v) else p)

/-- The source's rename step for one file:
`if os.path.exists(new): os.remove(new)` followed by `os.rename(old, new)`.
Returns the resulting directory and whether the rename succeeded;
`os.rename` fails when the source name no longer exists --- in
particular when `old = new`, since the guard just deleted it. -/
def removeThenRename (d : Dir α) (old new : String) : Dir α × Bool :=
  let d1 := if dirHas d new then dirRemove d new else d
  match dirLookup d1 old with
  | none => (d1, false)
  | some c => (dirRemove d1 old ++ [(new, c)], true)

/-- Parsed content of one annotation file: the `<filename>` and `<path>`
children of the root (absent when the element is missing) and the rest
of the document, carried opaquely and never modified. -/
structure AnnRecord where
  filename : Option String
  path : Option String
  rest : List String
deriving DecidableEq

/-- Content of a file in the annotation directory: either a record that
`ET.parse` accepts, or malformed content whose parse raises an exception
with the stored message. -/
inductive AnnContent
  | record (r : AnnRecord)
  | malformed (msg : String)
deriving DecidableEq

/-- Patch one parsed record as the source does: set `<filename>` to
`{idx}{img_ext}` and `<path>` to the image directory joined with that
same name, creating either element when absent; everything else is
kept. -/
def patchRecord (imgDirPath : String) (idx : Nat) (imgExt : String)
    (r : AnnRecord) : AnnRecord :=
  { r with
    filename := some (toString idx ++ imgExt)
    path := some (pathJoin imgDirPath (toString idx ++ imgExt)) }

/-- Message of the exception raised when a file to parse is missing. -/
def missingFileMsg (name : String) : String :=
  "No such file or directory: " ++ name

/-- Message of the exception raised when `os.rename` finds no source file. -/
def renameFailMsg (old new : String) : String :=
  "No such file or directory: " ++ old ++ " -> " ++ new

/-- Error string `f"更新标签 {annFile} 时出错：{e}"`. -/
def updateErrMsg (annFile e : String) : String :=
  "更新标签 " ++ annFile ++ " 时出错：" ++ e

/-- Error string `f"重命名标签 {annFile} 时出错：{e}"`. -/
def renameAnnErrMsg (annFile e : String) : String :=
  "重命名标签 " ++ annFile ++ " 时出错：" ++ e

/-- Error string `f"重命名图片 {imgFile} 时出错：{e}"`. -/
def renameImgErrMsg (imgFile e : String) : String :=
  "重命名图片 " ++ imgFile ++ " 时出错：" ++ e

/-- Log line `f"共找到 {n} 对文件"`. -/
def foundLog (n : Nat) : String :=
  "共找到 " ++ toString n ++ " 对文件"

/-- Log line `f"更新标签文件内容：{annFile}"`. -/
def patchLog (annFile : String) : String :=
  "更新标签文件内容：" ++ annFile

/-- Log line `f"重命名标签文件为：{idx}.xml"`. -/
def annRenameLog (idx : Nat) : String :=
  "重命名标签文件为：" ++ toString idx ++ ".xml"

/-- Log line `f"重命名图片文件为：{idx}{img_ext}"`. -/
def imgRenameLog (idx : Nat) (imgExt : String) : String :=
  "重命名图片文件为：" ++ toString idx ++ imgExt

/-- The count-mismatch message
`f"标签文件数量({a})与图片文件数量({b})不一致！"`. -/
def mismatchMsg (a b : Nat) : String :=
  "标签文件数量(" ++ (toString a ++ (")与图片文件数量(" ++ (toString b ++ ")不一致！")))

/-- Run-level failure message `f"严重错误：{e}"`. -/
def fatalMsg (e : String) : String :=
  "严重错误：" ++ e

/-- The image extension of one pair,
`img_ext = os.path.splitext(imgFile)[1].lower()`. -/
def imgExtOf (imgFile : String) : String :=
  pyLower (splitextExt imgFile)

/-- Step 1 of one pair: `ET.parse` the annotation file, patch
`<filename>`/`<path>`, and write the result back to the same path.
Returns the updated annotation directory, or the exception message when
the parse fails. -/
def patchAnnFile (imgDirPath : String) (idx : Nat) (imgExt : String)
    (annFile : String) (d : Dir AnnContent) : Except String (Dir AnnContent) :=
  match dirLookup d annFile with
  | none => Except.error (missingFileMsg annFile)
  | some (AnnContent.malformed m) => Except.error m
  | some (AnnContent.record r) =>
    Except.ok (dirUpdate d annFile
      (AnnContent.record (patchRecord imgDirPath idx imgExt r)))

/-- Mutable state of one run: the two directories, the accumulated error
list, the progress counter, the emitted `(current, total)` progress
signals and log lines in order, and a ghost trace of every sub-step's
success (three booleans per pair; a skipped sub-step is recorded as
`false`). -/
structure RunState where
  ann : Dir AnnContent
  img : Dir String
  errors : List String
  progress : Nat
  events : List (Nat × Nat)
  logs : List String
  steps : List Bool
deriving DecidableEq

/-- A successful sub-step: `currentProgress += 1`, emit
`(currentProgress, totalSteps)`, emit a log line, record success. -/
def emitOk (T : Nat) (s : RunState) (log : String) : RunState :=
  { s with
    progress := s.progress + 1
    events := s.events ++ [(s.progress + 1, T)]
    logs := s.logs ++ [log]
    steps := s.steps ++ [true] }

/-- A failed sub-step: append one error string, record failure. -/
def recordFail (s : RunState) (err : String) : RunState :=
  { s with errors := s.errors ++ [err], steps := s.steps ++ [false] }

/-- Ghost bookkeeping for the two sub-steps skipped by `continue` after
a patch failure. -/
def skipRest (s : RunState) : RunState :=
  { s with steps := s.steps ++ [false, false] }

/-- Step 2 of one pair (`try` block two): rename the annotation file to
`{idx}.xml`, deleting a pre-existing destination first; a failure is
recorded and does not re-raise. -/
def annRenamePhase (T : Nat) (idx : Nat) (annFile : String)
    (s : RunState) : RunState :=
  let newAnn := toString idx ++ ".xml"
  let rr := removeThenRename s.ann annFile newAnn
  if rr.2 then emitOk T { s with ann := rr.1 } (annRenameLog idx)
  else
    recordFail { s with ann := rr.1 }
      (renameAnnErrMsg annFile (renameFailMsg annFile newAnn))

/-- Step 3 of one pair (`try` block three): rename the image file to
`{idx}{img_ext}`, deleting a pre-existing destination first; a failure
is recorded and does not re-raise. -/
def imgRenamePhase (T : Nat) (idx : Nat) (imgFile : String)
    (s : RunState) : RunState :=
  let newImg := toString idx ++ imgExtOf imgFile
  let rr := removeThenRename s.img imgFile newImg
  if rr.2 then emitOk T { s with img := rr.1 } (imgRenameLog idx (imgExtOf imgFile))
  else
    recordFail { s with img := rr.1 }
      (renameImgErrMsg imgFile (renameFailMsg imgFile newImg))

/-- The body of the `for idx, (annFile, imgFile) in enumerate(pairs, 1)`
loop: patch the annotation file (on failure record one error and
`continue`, skipping both renames), otherwise run the two rename
sub-steps in order. -/
def stepPair (imgDirPath : String) (T : Nat) (s : RunState)
    (p : Nat × String × String) : RunState :=
  let idx := p.1
  let annFile := p.2.1
  let imgFile := p.2.2
  match patchAnnFile imgDirPath idx (imgExtOf imgFile) annFile s.ann with
  | Except.error m =>
    skipRest (recordFail s (updateErrMsg annFile m))
  | Except.ok d1 =>
    imgRenamePhase T idx imgFile
      (annRenamePhase T idx annFile (emitOk T { s with ann := d1 } (patchLog annFile)))

/-- The filtered, sorted annotation listing
`sorted([f for f in os.listdir(annDir) if f.lower().endswith('.xml')])`. -/
def annCandidates (d : Dir AnnContent) : List String :=
  sortStr ((d.map Prod.fst).filter annFilter)

/-- The filtered, sorted image listing
`sorted([f for f in os.listdir(imgDir) if splitext(f)[1].lower() in allowedImgExts])`. -/
def imgCandidates (d : Dir String) : List String :=
  sortStr ((d.map Prod.fst).filter imgFilter)

/-- The sequence `pairs = list(zip(annList, imgList))` with its 1-based enumeration. -/
def pairsOf (annD : Dir AnnContent) (imgD : Dir String) :
    List (Nat × String × String) :=
  enumerateFrom 1 ((annCandidates annD).zip (imgCandidates imgD))

/-- The pair count `len(pairs)`. -/
def numPairs (annD : Dir AnnContent) (imgD : Dir String) : Nat :=
  ((annCandidates annD).zip (imgCandidates imgD)).length

/-- The step budget `totalSteps = len(pairs) * 3`. -/
def totalStepsOf (annD : Dir AnnContent) (imgD : Dir String) : Nat :=
  numPairs annD imgD * 3

/-- State at the top of the loop: initial `(0, totalSteps)` progress
signal and the `共找到 ...` log line already emitted. -/
def initState (annD : Dir AnnContent) (imgD : Dir String) : RunState :=
  { ann := annD
    img := imgD
    errors := []
    progress := 0
    events := [(0, totalStepsOf annD imgD)]
    logs := [foundLog (numPairs annD imgD)]
    steps := [] }

/-- The whole `for` loop. -/
def runLoop (imgDirPath : String) (T : Nat) (s : RunState)
    (ps : List (Nat × String × String)) : RunState :=
  ps.foldl (stepPair imgDirPath T) s

/-- The final message: `f"文件统一转换完成，共处理 {len(pairs)} 对文件"`,
extended when errors occurred by `"\n部分错误：\n"` plus the first five
error strings joined with newlines, plus, when more than five occurred,
`f"\n……还有 {len(errorList)-5} 个错误"`. -/
def finalMessage (n : Nat) (errs : List String) : String :=
  let base := "文件统一转换完成，共处理 " ++ (toString n ++ " 对文件")
  if errs.isEmpty then base
  else
    let m := base ++ ("\n部分错误：\n" ++ pyJoin "\n" (errs.take 5))
    if 5 < errs.length then
      m ++ ("\n……还有 " ++ (toString (errs.length - 5) ++ " 个错误"))
    else m

/-- Observable outcome of one invocation of `FileProcessingThread.run`
on two existing directories: the final directory contents, the error
list, the emitted progress/log streams, the ghost sub-step trace, and
the terminal `processingFinished(success, message)` signal. -/
structure RunResult where
  ann : Dir AnnContent
  img : Dir String
  errors : List String
  events : List (Nat × Nat)
  logs : List String
  steps : List Bool
  success : Bool
  message : String
deriving DecidableEq

/-- Model of `FileProcessingThread.run` on two existing directories: list, filter
and sort both directories; abort with the count-mismatch `ValueError`
(surfaced as `严重错误：...` with no mutation) when the two lists differ
in length; otherwise process every pair and report
`(len(errorList) == 0, msg)`. -/
def run (imgDirPath : String) (annD : Dir AnnContent) (imgD : Dir String) :
    RunResult :=
  let annList := annCandidates annD
  let imgList := imgCandidates imgD
  if annList.length ≠ imgList.length then
    { ann := annD
      img := imgD
      errors := []
      events := []
      logs := []
      steps := []
      success := false
      message := fatalMsg (mismatchMsg annList.length imgList.length) }
  else
    let fin := runLoop imgDirPath (totalStepsOf annD imgD)
      (initState annD imgD) (pairsOf annD imgD)
    { ann := fin.ann
      img := fin.img
      errors := fin.errors
      events := fin.events
      logs := fin.logs
      steps := fin.steps
      success := fin.errors.isEmpty
      message := finalMessage (numPairs annD imgD) fin.errors }

/-! Concrete directories and states used to evaluate the pipeline at
specific inputs. -/

/-- An already-normalized annotation directory: one file `1.xml` whose
record already points at `1.jpg`. -/
def normAnnDir : Dir AnnContent :=
  [("1.xml", AnnContent.record ⟨some "1.jpg", some (pathJoin "IMG" "1.jpg"), []⟩)]

/-- An already-normalized image directory: one file `1.jpg`. -/
def normImgDir : Dir String := [("1.jpg", "P")]

/-- A one-pair annotation directory with empty referenced fields. -/
def exAnnDir : Dir AnnContent := [("a.xml", AnnContent.record ⟨none, none, []⟩)]

/-- A one-pair image directory whose file has an upper-case extension. -/
def exImgDir : Dir String := [("photo.JPG", "B")]

/-- A two-pair annotation directory whose first sorted file parses and
whose second is malformed. -/
def mixAnnDir : Dir AnnContent :=
  [("b.xml", AnnContent.malformed "boom"), ("a.xml", AnnContent.record ⟨none, none, []⟩)]

/-- A two-pair image directory. -/
def mixImgDir : Dir String := [("y.png", "Y"), ("x.jpg", "X")]

/-- A loop state whose annotation directory holds one malformed file. -/
def malState : RunState :=
  { ann := [("bad.xml", AnnContent.malformed "boom")]
    img := [("x.jpg", "X")]
    errors := []
    progress := 0
    events := []
    logs := []
    steps := [] }

/-- A loop state on an already-normalized pair, where both rename
destinations coincide with their sources. -/
def selfState : RunState :=
  { ann := [("1.xml", AnnContent.record ⟨none, none, []⟩)]
    img := [("1.jpg", "P")]
    errors := []
    progress := 0
    events := []
    logs := []
    steps := [] }

/-- A loop state for a pair whose image has an upper-case extension. -/
def exState : RunState :=
  { ann := exAnnDir
    img := exImgDir
    errors := []
    progress := 0
    events := []
    logs := []
    steps := [] }

/-- All letter-case variants of the bare dot-file name `".xml"`. -/
def xmlDotVariantList : List String :=
  [".xml", ".xmL", ".xMl", ".xML", ".Xml", ".XmL", ".XMl", ".XML"]

/-- All letter-case variants of the bare dot-file names `".jpg"`,
`".jpeg"` and `".png"`. -/
def imgDotVariantList : List String :=
  [".jpg", ".jpG", ".jPg", ".jPG", ".Jpg", ".JpG", ".JPg", ".JPG",
   ".jpeg", ".jpeG", ".jpEg", ".jpEG", ".jPeg", ".jPeG", ".jPEg", ".jPEG",
   ".Jpeg", ".JpeG", ".JpEg", ".JpEG", ".JPeg", ".JPeG", ".JPEg", ".JPEG",
   ".png", ".pnG", ".pNg", ".pNG", ".Png", ".PnG", ".PNg", ".PNG"]

/-- Invariant tying the emitted progress events to the progress counter
and the ghost sub-step trace: the events so far are exactly
`(0, T), (1, T), ..., (progress, T)` and `progress` counts the
successful sub-steps. -/
def ProgOK (T : Nat) (s : RunState) : Prop :=
  s.events = (List.range (s.progress + 1)).map (fun j => (j, T)) ∧
  s.steps.count true = s.progress

/-! Lemmas about the directory primitives. -/

theorem dirLookup_append_of_none {α : Type} (d e : Dir α) (k : String)
    (h : dirLookup d k = none) : dirLookup (d ++ e) k = dirLookup e k := by
  induction d with
  | nil => simp
  | cons p rest ih =>
    obtain ⟨k', v⟩ := p
    by_cases hk : k' = k
    · simp [dirLookup, hk] at h
    · simp only [dirLookup, hk, if_false, List.cons_append] at h ⊢
      exact ih h

theorem dirLookup_remove_self {α : Type} (d : Dir α) (k : String) :
    dirLookup (dirRemove d k) k = none := by
  induction d with
  | nil => simp [dirRemove, dirLookup]
  | cons p rest ih =>
    obtain ⟨k', v⟩ := p
    by_cases hk : k' = k
    · simpa [dirRemove, hk] using ih
    · simpa [dirRemove, dirLookup, hk] using ih

theorem dirLookup_remove_ne {α : Type} (d : Dir α) (k k₂ : String)
    (h : k ≠ k₂) : dirLookup (dirRemove d k₂) k = dirLookup d k := by
  induction d with
  | nil => simp [dirRemove, dirLookup]
  | cons p rest ih =>
    obtain ⟨k', v⟩ := p
    by_cases hk : k' = k₂
    · have hk' : ¬k' = k := fun he => h (by rw [← he, hk])
      have hk2 : ¬k₂ = k := fun he => h he.symm
      simp only [dirRemove, List.filter_cons] at ih ⊢
      simp [hk, hk', hk2, dirLookup, ih]
    · simp only [dirRemove, List.filter_cons] at ih ⊢
      simp [hk, dirLookup, ih]

theorem dirLookup_of_not_has {α : Type} (d : Dir α) (k : String)
    (h : ¬dirHas d k = true) : dirLookup d k = none := by
  cases ho : dirLookup d k with
  | none => rfl
  | some c => exact absurd (by simp [dirHas, ho]) h

/-- The guard `if os.path.exists(new): os.remove(new)` leaves no file
named `new`. -/
theorem dirLookup_guard_none {α : Type} (d : Dir α) (new : String) :
    dirLookup (if dirHas d new then dirRemove d new else d) new = none := by
  by_cases hh : dirHas d new
  · simp [hh, dirLookup_remove_self]
  · simp only [hh, if_false]
    exact dirLookup_of_not_has d new hh

theorem removeThenRename_eq_fail {α : Type} (d : Dir α) (old new : String)
    (h : dirLookup (if dirHas d new then dirRemove d new else d) old = none) :
    removeThenRename d old new =
      ((if dirHas d new then dirRemove d new else d), false) := by
  simp [removeThenRename, h]

theorem removeThenRename_eq_ok {α : Type} (d : Dir α) (old new : String) (c : α)
    (h : dirLookup (if dirHas d new then dirRemove d new else d) old = some c) :
    removeThenRename d old new =
      (dirRemove (if dirHas d new then dirRemove d new else d) old ++ [(new, c)],
        true) := by
  simp [removeThenRename, h]

theorem removeThenRename_lookup {α : Type} (d : Dir α) (old new : String)
    (h : (removeThenRename d old new).2 = true) :
    dirLookup (removeThenRename d old new).1 new = dirLookup d old := by
  cases hl : dirLookup (if dirHas d new then dirRemove d new else d) old with
  | none => rw [removeThenRename_eq_fail d old new hl] at h; simp at h
  | some c =>
    rw [removeThenRename_eq_ok d old new c hl]
    have hne : old ≠ new := by
      intro he
      rw [he, dirLookup_guard_none] at hl
      exact Option.noConfusion hl
    have h1 : dirLookup
        (dirRemove (if dirHas d new then dirRemove d new else d) old) new = none := by
      rw [dirLookup_remove_ne _ _ _ (fun he => hne he.symm), dirLookup_guard_none]
    have h2 : dirLookup d old = some c := by
      by_cases hh : dirHas d new
      · rw [← hl]; simp only [hh, if_true]
        exact (dirLookup_remove_ne d old new hne).symm
      · simpa [hh] using hl
    rw [h2, dirLookup_append_of_none _ _ _ h1]
    simp [dirLookup]

/-! Structural lemmas about the loop body. -/

theorem annRenamePhase_img (T idx : Nat) (annFile : String) (s : RunState) :
    (annRenamePhase T idx annFile s).img = s.img := by
  simp only [annRenamePhase]
  split <;> simp [emitOk, recordFail]

theorem imgRenamePhase_img (T idx : Nat) (imgFile : String) (s : RunState) :
    (imgRenamePhase T idx imgFile s).img =
      (removeThenRename s.img imgFile (toString idx ++ imgExtOf imgFile)).1 := by
  simp only [imgRenamePhase]
  split <;> simp [emitOk, recordFail]

theorem imgRenamePhase_ann (T idx : Nat) (imgFile : String) (s : RunState) :
    (imgRenamePhase T idx imgFile s).ann = s.ann := by
  simp only [imgRenamePhase]
  split <;> simp [emitOk, recordFail]

theorem annRenamePhase_errors_fail (T idx : Nat) (annFile : String) (s : RunState)
    (h : (removeThenRename s.ann annFile (toString idx ++ ".xml")).2 = false) :
    (annRenamePhase T idx annFile s).errors =
      s.errors ++
        [renameAnnErrMsg annFile (renameFailMsg annFile (toString idx ++ ".xml"))] := by
  simp [annRenamePhase, h, recordFail]

theorem imgRenamePhase_errors_mono (T idx : Nat) (imgFile : String) (s : RunState) :
    ∃ t, (imgRenamePhase T idx imgFile s).errors = s.errors ++ t := by
  simp only [imgRenamePhase]
  split
  · exact ⟨[], by simp [emitOk]⟩
  · refine ⟨[renameImgErrMsg imgFile
      (renameFailMsg imgFile (toString idx ++ imgExtOf imgFile))], ?_⟩
    simp [recordFail]

theorem annRenamePhase_errors_mono (T idx : Nat) (annFile : String) (s : RunState) :
    ∃ t, (annRenamePhase T idx annFile s).errors = s.errors ++ t := by
  simp only [annRenamePhase]
  split
  · exact ⟨[], by simp [emitOk]⟩
  · refine ⟨[renameAnnErrMsg annFile
      (renameFailMsg annFile (toString idx ++ ".xml"))], ?_⟩
    simp [recordFail]

theorem stepPair_patch_fail (imgP : String) (T : Nat) (s : RunState)
    (idx : Nat) (annFile imgFile m : String)
    (hp : patchAnnFile imgP idx (imgExtOf imgFile) annFile s.ann = Except.error m) :
    stepPair imgP T s (idx, annFile, imgFile) =
      { s with
        errors := s.errors ++ [updateErrMsg annFile m]
        steps := s.steps ++ [false, false, false] } := by
  simp [stepPair, hp, skipRest, recordFail]

theorem stepPair_patch_ok (imgP : String) (T : Nat) (s : RunState)
    (idx : Nat) (annFile imgFile : String) (d1 : Dir AnnContent)
    (hp : patchAnnFile imgP idx (imgExtOf imgFile) annFile s.ann = Except.ok d1) :
    stepPair imgP T s (idx, annFile, imgFile) =
      imgRenamePhase T idx imgFile
        (annRenamePhase T idx annFile
          (emitOk T { s with ann := d1 } (patchLog annFile))) := by
  simp [stepPair, hp]

theorem stepPair_errors_mono (imgP : String) (T : Nat) (s : RunState)
    (p : Nat × String × String) :
    ∃ t, (stepPair imgP T s p).errors = s.errors ++ t := by
  obtain ⟨idx, annFile, imgFile⟩ := p
  cases hp : patchAnnFile imgP idx (imgExtOf imgFile) annFile s.ann with
  | error m =>
    exact ⟨_, by rw [stepPair_patch_fail imgP T s idx annFile imgFile m hp]⟩
  | ok d1 =>
    rw [stepPair_patch_ok imgP T s idx annFile imgFile d1 hp]
    obtain ⟨t1, ht1⟩ := annRenamePhase_errors_mono T idx annFile
      (emitOk T { s with ann := d1 } (patchLog annFile))
    obtain ⟨t2, ht2⟩ := imgRenamePhase_errors_mono T idx imgFile
      (annRenamePhase T idx annFile (emitOk T { s with ann := d1 } (patchLog annFile)))
    refine ⟨t1 ++ t2, ?_⟩
    rw [ht2, ht1]
    simp [emitOk]

theorem runLoop_errors_mono (imgP : String) (T : Nat) :
    ∀ (ps : List (Nat × String × String)) (s : RunState),
      ∃ t, (runLoop imgP T s ps).errors = s.errors ++ t := by
  intro ps
  induction ps with
  | nil => exact fun s => ⟨[], by simp [runLoop]⟩
  | cons p ps ih =>
    intro s
    obtain ⟨t1, ht1⟩ := stepPair_errors_mono imgP T s p
    obtain ⟨t2, ht2⟩ := ih (stepPair imgP T s p)
    refine ⟨t1 ++ t2, ?_⟩
    show (runLoop imgP T (stepPair imgP T s p) ps).errors = _
    rw [ht2, ht1, List.append_assoc]

/-! Progress-event and ghost sub-step accounting. -/

theorem progOK_emitOk (T : Nat) (s : RunState) (log : String)
    (h : ProgOK T s) : ProgOK T (emitOk T s log) := by
  obtain ⟨he, hc⟩ := h
  constructor
  · simp [emitOk, he, List.range_succ]
  · simp [emitOk, List.count_append, hc]

theorem progOK_recordFail (T : Nat) (s : RunState) (e : String)
    (h : ProgOK T s) : ProgOK T (recordFail s e) := by
  obtain ⟨he, hc⟩ := h
  exact ⟨he, by simp [recordFail, List.count_append, hc]⟩

theorem progOK_skipRest (T : Nat) (s : RunState)
    (h : ProgOK T s) : ProgOK T (skipRest s) := by
  obtain ⟨he, hc⟩ := h
  exact ⟨he, by simp [skipRest, List.count_append, hc]⟩

theorem progOK_annRenamePhase (T idx : Nat) (annFile : String) (s : RunState)
    (h : ProgOK T s) : ProgOK T (annRenamePhase T idx annFile s) := by
  simp only [annRenamePhase]
  split
  · exact progOK_emitOk T _ _ h
  · exact progOK_recordFail T _ _ h

theorem progOK_imgRenamePhase (T idx : Nat) (imgFile : String) (s : RunState)
    (h : ProgOK T s) : ProgOK T (imgRenamePhase T idx imgFile s) := by
  simp only [imgRenamePhase]
  split
  · exact progOK_emitOk T _ _ h
  · exact progOK_recordFail T _ _ h

theorem progOK_stepPair (imgP : String) (T : Nat) (s : RunState)
    (p : Nat × String × String) (h : ProgOK T s) :
    ProgOK T (stepPair imgP T s p) := by
  obtain ⟨idx, annFile, imgFile⟩ := p
  cases hp : patchAnnFile imgP idx (imgExtOf imgFile) annFile s.ann with
  | error m =>
    rw [stepPair_patch_fail imgP T s idx annFile imgFile m hp]
    obtain ⟨he, hc⟩ := h
    exact ⟨he, by simp [List.count_append, hc]⟩
  | ok d1 =>
    rw [stepPair_patch_ok imgP T s idx annFile imgFile d1 hp]
    exact progOK_imgRenamePhase T idx imgFile _
      (progOK_annRenamePhase T idx annFile _ (progOK_emitOk T _ _ h))

theorem runLoop_progOK (imgP : String) (T : Nat)
    (ps : List (Nat × String × String)) :
    ∀ s : RunState, ProgOK T s → ProgOK T (runLoop imgP T s ps) := by
  induction ps with
  | nil => exact fun s h => h
  | cons p ps ih =>
    intro s h
    exact ih (stepPair imgP T s p) (progOK_stepPair imgP T s p h)

theorem emitOk_steps_len (T : Nat) (s : RunState) (log : String) :
    (emitOk T s log).steps.length = s.steps.length + 1 := by
  simp [emitOk]

theorem recordFail_steps_len (s : RunState) (e : String) :
    (recordFail s e).steps.length = s.steps.length + 1 := by
  simp [recordFail]

theorem annRenamePhase_steps_len (T idx : Nat) (annFile : String) (s : RunState) :
    (annRenamePhase T idx annFile s).steps.length = s.steps.length + 1 := by
  simp only [annRenamePhase]
  split
  · exact emitOk_steps_len T _ _
  · exact recordFail_steps_len _ _

theorem imgRenamePhase_steps_len (T idx : Nat) (imgFile : String) (s : RunState) :
    (imgRenamePhase T idx imgFile s).steps.length = s.steps.length + 1 := by
  simp only [imgRenamePhase]
  split
  · exact emitOk_steps_len T _ _
  · exact recordFail_steps_len _ _

theorem stepPair_steps_len (imgP : String) (T : Nat) (s : RunState)
    (p : Nat × String × String) :
    (stepPair imgP T s p).steps.length = s.steps.length + 3 := by
  obtain ⟨idx, annFile, imgFile⟩ := p
  cases hp : patchAnnFile imgP idx (imgExtOf imgFile) annFile s.ann with
  | error m =>
    rw [stepPair_patch_fail imgP T s idx annFile imgFile m hp]
    simp
  | ok d1 =>
    rw [stepPair_patch_ok imgP T s idx annFile imgFile d1 hp]
    rw [imgRenamePhase_steps_len, annRenamePhase_steps_len, emitOk_steps_len]

theorem runLoop_steps_len (imgP : String) (T : Nat)
    (ps : List (Nat × String × String)) :
    ∀ s : RunState,
      (runLoop imgP T s ps).steps.length = s.steps.length + 3 * ps.length := by
  induction ps with
  | nil => intro s; simp [runLoop]
  | cons p ps ih =>
    intro s
    show (runLoop imgP T (stepPair imgP T s p) ps).steps.length = _
    rw [ih (stepPair imgP T s p), stepPair_steps_len]
    simp [List.length_cons]
    omega

theorem count_true_add_count_false (l : List Bool) :
    l.count true + l.count false = l.length := by
  induction l with
  | nil => rfl
  | cons b l ih =>
    cases b <;> simp [List.count_cons] <;> omega

/-! Enumeration and pairing lemmas. -/

theorem enumerateFrom_length {α : Type} : ∀ (l : List α) (n : Nat),
    (enumerateFrom n l).length = l.length := by
  intro l
  induction l with
  | nil => intro n; rfl
  | cons x xs ih => intro n; simp [enumerateFrom, ih]

theorem enumerateFrom_zip_getElem? :
    ∀ (a : List String) (b : List String) (n i : Nat) (x y : String),
      a[i]? = some x → b[i]? = some y →
      (enumerateFrom n (a.zip b))[i]? = some (n + i, x, y) := by
  intro a
  induction a with
  | nil => intro b n i x y hx; simp at hx
  | cons a as ih =>
    intro b n i x y hx hy
    cases b with
    | nil => simp at hy
    | cons b bs =>
      cases i with
      | zero =>
        simp only [List.getElem?_cons_zero, Option.some.injEq] at hx hy
        subst hx; subst hy
        simp [enumerateFrom]
      | succ i =>
        simp only [List.getElem?_cons_succ] at hx hy
        simp only [List.zip_cons_cons, enumerateFrom, List.getElem?_cons_succ]
        show (enumerateFrom (n + 1) (as.zip bs))[i]? = some (n + (i + 1), x, y)
        rw [ih bs (n + 1) i x y hx hy]
        have hn : n + 1 + i = n + (i + 1) := by omega
        rw [hn]

theorem pairsOf_length (annD : Dir AnnContent) (imgD : Dir String) :
    (pairsOf annD imgD).length = numPairs annD imgD := by
  simp [pairsOf, numPairs, enumerateFrom_length]

theorem pairsOf_getElem? (annD : Dir AnnContent) (imgD : Dir String)
    (i : Nat) (x y : String)
    (hx : (annCandidates annD)[i]? = some x)
    (hy : (imgCandidates imgD)[i]? = some y) :
    (pairsOf annD imgD)[i]? = some (i + 1, x, y) := by
  have h := enumerateFrom_zip_getElem? (annCandidates annD) (imgCandidates imgD)
    1 i x y hx hy
  show (enumerateFrom 1 ((annCandidates annD).zip (imgCandidates imgD)))[i]? = _
  rw [h]
  have hn : 1 + i = i + 1 := by omega
  rw [hn]

/-! The sort used to order both listings is a genuine sort: its output
is a permutation of its input and is pairwise ordered by the
codepoint-lexicographic comparison. -/

theorem charToNat_inj {a b : Char} (h : a.toNat = b.toNat) : a = b := by
  rw [← Char.ofNat_toNat a, h, Char.ofNat_toNat]

theorem listCharLe_total : ∀ a b : List Char,
    listCharLe a b = true ∨ listCharLe b a = true := by
  intro a
  induction a with
  | nil => intro b; left; rfl
  | cons a as ih =>
    intro b
    cases b with
    | nil => right; rfl
    | cons b bs =>
      by_cases hab : a = b
      · subst hab
        rcases ih bs with h | h
        · left; simpa [listCharLe] using h
        · right; simpa [listCharLe] using h
      · have hne : a.toNat ≠ b.toNat := fun h => hab (charToNat_inj h)
        have hba : ¬b = a := fun h => hab h.symm
        simp only [listCharLe, hab, hba, if_false, decide_eq_true_eq]
        omega

theorem listCharLe_trans : ∀ a b c : List Char,
    listCharLe a b = true → listCharLe b c = true → listCharLe a c = true := by
  intro a
  induction a with
  | nil => intro b c h1 h2; rfl
  | cons a as ih =>
    intro b c h1 h2
    cases b with
    | nil => simp [listCharLe] at h1
    | cons b bs =>
      cases c with
      | nil => simp [listCharLe] at h2
      | cons c cs =>
        by_cases hab : a = b <;> by_cases hbc : b = c
        · subst hab; subst hbc
          simp only [listCharLe, if_pos rfl] at h1 h2 ⊢
          exact ih bs cs h1 h2
        · subst hab
          simp only [listCharLe, if_pos rfl] at h1
          simp only [listCharLe, hbc, if_false, decide_eq_true_eq] at h2
          simp only [listCharLe, hbc, if_false, decide_eq_true_eq]
          exact h2
        · subst hbc
          simp only [listCharLe, hab, if_false, decide_eq_true_eq] at h1
          simp only [listCharLe, hab, if_false, decide_eq_true_eq]
          exact h1
        · simp only [listCharLe, hab, hbc, if_false, decide_eq_true_eq] at h1 h2
          have hac : ¬a = c := fun he => by rw [he] at h1; omega
          simp only [listCharLe, hac, if_false, decide_eq_true_eq]
          omega

theorem strLe_total (a b : String) : strLe a b = true ∨ strLe b a = true :=
  listCharLe_total a.data b.data

theorem strLe_trans {a b c : String} (h1 : strLe a b = true)
    (h2 : strLe b c = true) : strLe a c = true :=
  listCharLe_trans a.data b.data c.data h1 h2

theorem insertSorted_perm (x : String) :
    ∀ l : List String, (insertSorted x l).Perm (x :: l) := by
  intro l
  induction l with
  | nil => exact List.Perm.refl _
  | cons y ys ih =>
    simp only [insertSorted]
    split
    · exact List.Perm.refl _
    · exact (List.Perm.cons y ih).trans (List.Perm.swap x y ys)

theorem sortStr_perm : ∀ l : List String, (sortStr l).Perm l := by
  intro l
  induction l with
  | nil => exact List.Perm.refl _
  | cons x xs ih =>
    exact (insertSorted_perm x (sortStr xs)).trans (List.Perm.cons x ih)

theorem insertSorted_sorted (x : String) :
    ∀ l : List String,
      List.Pairwise (fun a b => strLe a b = true) l →
      List.Pairwise (fun a b => strLe a b = true) (insertSorted x l) := by
  intro l
  induction l with
  | nil => intro _; simp [insertSorted]
  | cons y ys ih =>
    intro h
    rw [List.pairwise_cons] at h
    obtain ⟨hy, hys⟩ := h
    simp only [insertSorted]
    split
    · rename_i hc
      rw [List.pairwise_cons]
      refine ⟨?_, List.pairwise_cons.mpr ⟨hy, hys⟩⟩
      intro z hz
      rcases List.mem_cons.mp hz with rfl | hz2
      · exact hc
      · exact strLe_trans hc (hy z hz2)
    · rename_i hc
      have hyx : strLe y x = true := by
        rcases strLe_total x y with h | h
        · exact absurd h hc
        · exact h
      rw [List.pairwise_cons]
      refine ⟨?_, ih hys⟩
      intro z hz
      rcases List.mem_cons.mp ((insertSorted_perm x ys).mem_iff.mp hz) with rfl | hz2
      · exact hyx
      · exact hy z hz2

theorem sortStr_sorted : ∀ l : List String,
    List.Pairwise (fun a b => strLe a b = true) (sortStr l) := by
  intro l
  induction l with
  | nil => exact List.Pairwise.nil
  | cons x xs ih => exact insertSorted_sorted x (sortStr xs) ih

/-! Containment lemma for the Python `"\n".join` model. -/

theorem pyJoin_mem_split (sep : String) :
    ∀ (l : List String) (e : String), e ∈ l →
      ∃ p q, pyJoin sep l = p ++ (e ++ q) := by
  intro l
  induction l with
  | nil => intro e he; simp at he
  | cons x xs ih =>
    intro e he
    cases xs with
    | nil =>
      rcases List.mem_singleton.mp he with rfl
      exact ⟨"", "", by simp [pyJoin, String.empty_append, String.append_empty]⟩
    | cons y ys =>
      rcases List.mem_cons.mp he with rfl | hmem
      · refine ⟨"", sep ++ pyJoin sep (y :: ys), ?_⟩
        simp [pyJoin, String.empty_append, String.append_assoc]
      · obtain ⟨p, q, hpq⟩ := ih e hmem
        refine ⟨x ++ sep ++ p, q, ?_⟩
        show x ++ sep ++ pyJoin sep (y :: ys) = _
        rw [hpq]
        simp [String.append_assoc]

/-! Run-level characterizations. -/

theorem run_of_counts_ne (imgP : String) (annD : Dir AnnContent) (imgD : Dir String)
    (h : (annCandidates annD).length ≠ (imgCandidates imgD).length) :
    run imgP annD imgD =
      { ann := annD
        img := imgD
        errors := []
        events := []
        logs := []
        steps := []
        success := false
        message := fatalMsg (mismatchMsg (annCandidates annD).length
          (imgCandidates imgD).length) } := by
  simp [run, h]

theorem run_of_counts_eq (imgP : String) (annD : Dir AnnContent) (imgD : Dir String)
    (h : (annCandidates annD).length = (imgCandidates imgD).length) :
    run imgP annD imgD =
      { ann := (runLoop imgP (totalStepsOf annD imgD) (initState annD imgD)
          (pairsOf annD imgD)).ann
        img := (runLoop imgP (totalStepsOf annD imgD) (initState annD imgD)
          (pairsOf annD imgD)).img
        errors := (runLoop imgP (totalStepsOf annD imgD) (initState annD imgD)
          (pairsOf annD imgD)).errors
        events := (runLoop imgP (totalStepsOf annD imgD) (initState annD imgD)
          (pairsOf annD imgD)).events
        logs := (runLoop imgP (totalStepsOf annD imgD) (initState annD imgD)
          (pairsOf annD imgD)).logs
        steps := (runLoop imgP (totalStepsOf annD imgD) (initState annD imgD)
          (pairsOf annD imgD)).steps
        success := (runLoop imgP (totalStepsOf annD imgD) (initState annD imgD)
          (pairsOf annD imgD)).errors.isEmpty
        message := finalMessage (numPairs annD imgD)
          (runLoop imgP (totalStepsOf annD imgD) (initState annD imgD)
            (pairsOf annD imgD)).errors } := by
  simp [run, h, runLoop]

theorem initState_progOK (annD : Dir AnnContent) (imgD : Dir String) :
    ProgOK (totalStepsOf annD imgD) (initState annD imgD) := by
  constructor
  · simp [initState, List.range_succ]
  · simp [initState]

theorem stepPair_img_of_ok (imgP : String) (T : Nat) (s : RunState)
    (idx : Nat) (annFile imgFile : String) (d1 : Dir AnnContent)
    (hp : patchAnnFile imgP idx (imgExtOf imgFile) annFile s.ann = Except.ok d1) :
    (stepPair imgP T s (idx, annFile, imgFile)).img =
      (removeThenRename s.img imgFile (toString idx ++ imgExtOf imgFile)).1 := by
  rw [stepPair_patch_ok imgP T s idx annFile imgFile d1 hp, imgRenamePhase_img,
    annRenamePhase_img]
  simp [emitOk]

/-! Structure of the terminal message. -/

theorem finalMessage_contains_count (n : Nat) (errs : List String) :
    ∃ p q, finalMessage n errs = p ++ (toString n ++ q) := by
  by_cases he : errs.isEmpty
  · refine ⟨"文件统一转换完成，共处理 ", " 对文件", ?_⟩
    simp [finalMessage, he]
  · by_cases h5 : 5 < errs.length
    · refine ⟨"文件统一转换完成，共处理 ",
        " 对文件" ++ ("\n部分错误：\n" ++ pyJoin "\n" (errs.take 5)) ++
          ("\n……还有 " ++ (toString (errs.length - 5) ++ " 个错误")), ?_⟩
      simp [finalMessage, he, h5, String.append_assoc]
    · refine ⟨"文件统一转换完成，共处理 ",
        " 对文件" ++ ("\n部分错误：\n" ++ pyJoin "\n" (errs.take 5)), ?_⟩
      simp [finalMessage, he, h5, String.append_assoc]

theorem finalMessage_contains_errors (n : Nat) (errs : List String) :
    ∀ e ∈ errs.take 5, ∃ p q, finalMessage n errs = p ++ (e ++ q) := by
  intro e he
  have hne : ¬errs.isEmpty = true := by
    intro hh
    rw [List.isEmpty_iff] at hh
    subst hh
    simp at he
  obtain ⟨p, q, hpq⟩ := pyJoin_mem_split "\n" (errs.take 5) e he
  by_cases h5 : 5 < errs.length
  · refine ⟨("文件统一转换完成，共处理 " ++ (toString n ++ " 对文件")) ++
      ("\n部分错误：\n" ++ p),
      q ++ ("\n……还有 " ++ (toString (errs.length - 5) ++ " 个错误")), ?_⟩
    simp [finalMessage, hne, h5, hpq, String.append_assoc]
  · refine ⟨("文件统一转换完成，共处理 " ++ (toString n ++ " 对文件")) ++
      ("\n部分错误：\n" ++ p), q, ?_⟩
    simp [finalMessage, hne, h5, hpq, String.append_assoc]

theorem finalMessage_contains_rest (n : Nat) (errs : List String)
    (h5 : 5 < errs.length) :
    ∃ p q, finalMessage n errs = p ++ (toString (errs.length - 5) ++ q) := by
  have hne : ¬errs.isEmpty = true := by
    intro hh
    rw [List.isEmpty_iff] at hh
    subst hh
    simp at h5
  refine ⟨("文件统一转换完成，共处理 " ++ (toString n ++ " 对文件")) ++
    ("\n部分错误：\n" ++ pyJoin "\n" (errs.take 5)) ++ "\n……还有 ",
    " 个错误", ?_⟩
  simp [finalMessage, hne, h5, String.append_assoc]

/-! Claim theorems. -/

/-- C1: the claim states that re-running the pipeline on an
already-normalized dataset (`1.xml` paired with `1.jpg`) is idempotent
with an empty error list.  The code violates this: for each pair the
rename destination equals the source, so the `os.path.exists` guard
deletes the file itself and the subsequent `os.rename` fails --- the run
deletes both files, records two errors and finishes with success flag
false.  This theorem evaluates the embedded pipeline at that failing
input. -/
theorem rerun_on_normalized_dataset_destroys :
    (run "IMG" normAnnDir normImgDir).ann = [] ∧
    (run "IMG" normAnnDir normImgDir).img = [] ∧
    (run "IMG" normAnnDir normImgDir).success = false ∧
    (run "IMG" normAnnDir normImgDir).errors.length = 2 := by
  decide

/-- C2: when the filtered, sorted listings differ in length the run
aborts with the count-mismatch failure naming both counts, and neither
directory is modified. -/
theorem count_mismatch_aborts_untouched (imgP : String)
    (annD : Dir AnnContent) (imgD : Dir String)
    (h : (annCandidates annD).length ≠ (imgCandidates imgD).length) :
    (run imgP annD imgD).ann = annD ∧
    (run imgP annD imgD).img = imgD ∧
    (run imgP annD imgD).errors = [] ∧
    (run imgP annD imgD).success = false ∧
    (run imgP annD imgD).message =
      fatalMsg (mismatchMsg (annCandidates annD).length
        (imgCandidates imgD).length) ∧
    ∃ p q t, (run imgP annD imgD).message =
      p ++ (toString (annCandidates annD).length ++
        (q ++ (toString (imgCandidates imgD).length ++ t))) := by
  rw [run_of_counts_ne imgP annD imgD h]
  refine ⟨rfl, rfl, rfl, rfl, rfl,
    "严重错误：" ++ "标签文件数量(", ")与图片文件数量(", ")不一致！", ?_⟩
  rw [String.append_assoc]
  rfl

/-- Witness for C2 at a concrete mismatched input: one annotation file,
zero image files. -/
theorem count_mismatch_aborts_untouched_w :
    (run "IMG" exAnnDir ([] : Dir String)).ann = exAnnDir ∧
    (run "IMG" exAnnDir ([] : Dir String)).img = [] ∧
    (run "IMG" exAnnDir ([] : Dir String)).success = false := by
  have h := count_mismatch_aborts_untouched "IMG" exAnnDir
    ([] : Dir String) (by decide)
  exact ⟨h.1, h.2.1, h.2.2.2.1⟩

/-- C4: when the annotation file parses to a record, the patch step
returns the same directory with that file overwritten by a record whose
`filename` field is `{idx}{lower-cased image extension}` and whose
`path` field is the image directory joined with the same name; both
fields are set whether or not they were present, and nothing else in
the record changes. -/
theorem patch_sets_filename_and_path (imgP : String) (idx : Nat)
    (imgFile annFile : String) (d : Dir AnnContent) (r : AnnRecord)
    (h : dirLookup d annFile = some (AnnContent.record r)) :
    patchAnnFile imgP idx (imgExtOf imgFile) annFile d =
      Except.ok (dirUpdate d annFile (AnnContent.record
        { filename := some (toString idx ++ imgExtOf imgFile)
          path := some (pathJoin imgP (toString idx ++ imgExtOf imgFile))
          rest := r.rest })) := by
  simp [patchAnnFile, h, patchRecord]

/-- Witness for C4 at a concrete record with both referenced fields
absent. -/
theorem patch_sets_filename_and_path_w :
    patchAnnFile "IMG" 2 (imgExtOf "photo.JPG") "a.xml" exAnnDir =
      Except.ok (dirUpdate exAnnDir "a.xml" (AnnContent.record
        { filename := some (toString 2 ++ imgExtOf "photo.JPG")
          path := some (pathJoin "IMG" (toString 2 ++ imgExtOf "photo.JPG"))
          rest := ([] : List String) })) :=
  patch_sets_filename_and_path "IMG" 2 "photo.JPG" "a.xml" exAnnDir
    ⟨none, none, []⟩ (by decide)

/-- C8 counterexample: at a pair whose image is `photo.JPG` (index 1),
every sub-step succeeds, yet the image is renamed to `1.jpg` --- the
lower-cased extension --- and no file `1.JPG` exists afterwards,
refuting the claim that the original extension is preserved as-is. -/
theorem image_case_preserved_cex :
    (run "IMG" exAnnDir exImgDir).errors = [] ∧
    (run "IMG" exAnnDir exImgDir).img = [("1.jpg", "B")] ∧
    dirLookup (run "IMG" exAnnDir exImgDir).img "1.JPG" = none := by
  decide

/-- C8 amended: for every pair whose patch succeeded and whose image
rename succeeds, the image file's content ends up under the name
`{idx}{original extension lower-cased}`. -/
theorem image_rename_lowercases_extension
    (imgP : String) (T : Nat) (s : RunState) (idx : Nat)
    (annFile imgFile : String) (d1 : Dir AnnContent)
    (hp : patchAnnFile imgP idx (imgExtOf imgFile) annFile s.ann = Except.ok d1)
    (hr : (removeThenRename s.img imgFile
      (toString idx ++ imgExtOf imgFile)).2 = true) :
    dirLookup (stepPair imgP T s (idx, annFile, imgFile)).img
        (toString idx ++ imgExtOf imgFile) = dirLookup s.img imgFile := by
  rw [stepPair_img_of_ok imgP T s idx annFile imgFile d1 hp]
  exact removeThenRename_lookup s.img imgFile _ hr

/-- Witness for the amended C8 at the concrete pair
`("a.xml", "photo.JPG")`, index 1. -/
theorem image_rename_lowercases_extension_w :
    dirLookup (stepPair "IMG" 3 exState (1, "a.xml", "photo.JPG")).img
        (toString 1 ++ imgExtOf "photo.JPG") = dirLookup exState.img "photo.JPG" :=
  image_rename_lowercases_extension "IMG" 3 exState 1 "a.xml" "photo.JPG"
    [("a.xml", AnnContent.record
      ⟨some "1.jpg", some (pathJoin "IMG" "1.jpg"), []⟩)]
    rfl (by decide)

/-- C9: the two extension filters treat bare dot-files asymmetrically.
Every letter-case variant of a file named exactly `".xml"` passes the
annotation filter (a pure lower-cased suffix test), while every
letter-case variant of `".jpg"`, `".jpeg"` or `".png"` is rejected by
the image filter, because `os.path.splitext` assigns such names an
empty extension; consequently a bare dot-file raises the annotation
count but not the image count. -/
theorem dotfile_filter_asymmetry :
    (∀ s ∈ xmlDotVariantList, annFilter s = true) ∧
    (∀ s ∈ imgDotVariantList, imgFilter s = false) ∧
    annCandidates [(".xml", AnnContent.malformed "x")] = [".xml"] ∧
    imgCandidates [(".jpg", "y")] = [] := by
  decide

/-- Witness for C9 at the concrete names `".XML"` and `".JPG"`. -/
theorem dotfile_filter_asymmetry_w :
    annFilter ".XML" = true ∧ imgFilter ".JPG" = false :=
  ⟨dotfile_filter_asymmetry.1 ".XML" (by decide),
   dotfile_filter_asymmetry.2.1 ".JPG" (by decide)⟩

/-- C3: when both filtered listings have length `N`, the pair builder
produces exactly `N` pairs, the pair at 0-based position `i` carries the
1-based index `i + 1` together with the `i`-th elements of the two
sorted, filtered listings, and the reported total step count is `3 * N`.
The two listings really are the filtered directory names arranged in
codepoint-lexicographic order: each is a permutation of the filtered
listing that is pairwise ordered under `strLe`. -/
theorem pair_builder_positional_total (annD : Dir AnnContent)
    (imgD : Dir String) (N : Nat)
    (hA : (annCandidates annD).length = N)
    (hB : (imgCandidates imgD).length = N) :
    (pairsOf annD imgD).length = N ∧
    (∀ i x y, (annCandidates annD)[i]? = some x →
      (imgCandidates imgD)[i]? = some y →
      (pairsOf annD imgD)[i]? = some (i + 1, x, y)) ∧
    totalStepsOf annD imgD = 3 * N ∧
    List.Pairwise (fun a b => strLe a b = true) (annCandidates annD) ∧
    List.Pairwise (fun a b => strLe a b = true) (imgCandidates imgD) ∧
    (annCandidates annD).Perm ((annD.map Prod.fst).filter annFilter) ∧
    (imgCandidates imgD).Perm ((imgD.map Prod.fst).filter imgFilter) := by
  refine ⟨?_, ?_, ?_, sortStr_sorted _, sortStr_sorted _, sortStr_perm _,
    sortStr_perm _⟩
  · rw [pairsOf_length]
    simp [numPairs, hA, hB]
  · exact fun i x y hx hy => pairsOf_getElem? annD imgD i x y hx hy
  · simp only [totalStepsOf, numPairs, List.length_zip, hA, hB]
    omega

/-- Witness for C3 on the one-pair example directories. -/
theorem pair_builder_positional_total_w :
    (pairsOf exAnnDir exImgDir).length = 1 ∧
    (pairsOf exAnnDir exImgDir)[0]? = some (1, "a.xml", "photo.JPG") ∧
    totalStepsOf exAnnDir exImgDir = 3 := by
  have h := pair_builder_positional_total exAnnDir exImgDir 1
    (by decide) (by decide)
  exact ⟨h.1, h.2.1 0 "a.xml" "photo.JPG" (by decide) (by decide), h.2.2.1⟩

/-- C5: a pair whose annotation file fails to parse contributes exactly
one error string tagged with the original annotation filename, skips
both rename sub-steps (both directories, the progress counter and the
event stream are untouched, and the three ghost sub-steps are recorded
as failed), and the loop goes on: whenever some pair's patch step fails
during a matched-count run, the terminal outcome still reports the full
pair count in its message while the success flag is false. -/
theorem parse_failure_isolated :
    (∀ (imgP : String) (T : Nat) (s : RunState) (idx : Nat)
        (annFile imgFile m : String),
      patchAnnFile imgP idx (imgExtOf imgFile) annFile s.ann = Except.error m →
      stepPair imgP T s (idx, annFile, imgFile) =
        { s with
          errors := s.errors ++ [updateErrMsg annFile m]
          steps := s.steps ++ [false, false, false] }) ∧
    (∀ (imgP : String) (annD : Dir AnnContent) (imgD : Dir String)
        (l1 l2 : List (Nat × String × String)) (idx : Nat)
        (annFile imgFile m : String),
      (annCandidates annD).length = (imgCandidates imgD).length →
      pairsOf annD imgD = l1 ++ (idx, annFile, imgFile) :: l2 →
      patchAnnFile imgP idx (imgExtOf imgFile) annFile
          (runLoop imgP (totalStepsOf annD imgD) (initState annD imgD) l1).ann
        = Except.error m →
      (run imgP annD imgD).success = false ∧
      (run imgP annD imgD).message =
        finalMessage (numPairs annD imgD) (run imgP annD imgD).errors) := by
  constructor
  · exact fun imgP T s idx annFile imgFile m hp =>
      stepPair_patch_fail imgP T s idx annFile imgFile m hp
  · intro imgP annD imgD l1 l2 idx annFile imgFile m hc hsplit hp
    rw [run_of_counts_eq imgP annD imgD hc]
    have hfold : runLoop imgP (totalStepsOf annD imgD) (initState annD imgD)
        (pairsOf annD imgD) =
        runLoop imgP (totalStepsOf annD imgD)
          (stepPair imgP (totalStepsOf annD imgD)
            (runLoop imgP (totalStepsOf annD imgD) (initState annD imgD) l1)
            (idx, annFile, imgFile)) l2 := by
      rw [hsplit]
      simp [runLoop, List.foldl_append]
    have hstep := stepPair_patch_fail imgP (totalStepsOf annD imgD)
      (runLoop imgP (totalStepsOf annD imgD) (initState annD imgD) l1)
      idx annFile imgFile m hp
    obtain ⟨t, ht⟩ := runLoop_errors_mono imgP (totalStepsOf annD imgD) l2
      (stepPair imgP (totalStepsOf annD imgD)
        (runLoop imgP (totalStepsOf annD imgD) (initState annD imgD) l1)
        (idx, annFile, imgFile))
    constructor
    · show (runLoop imgP (totalStepsOf annD imgD) (initState annD imgD)
        (pairsOf annD imgD)).errors.isEmpty = false
      rw [hfold, ht, hstep]
      simp
    · rfl

/-- Witness for C5: the malformed pair `("bad.xml", "x.jpg")` at index 1
inside `malState`, and the two-pair mixed run whose first processed pair
is malformed. -/
theorem parse_failure_isolated_w :
    (stepPair "IMG" 3 malState (1, "bad.xml", "x.jpg") =
      { malState with
        errors := ["更新标签 bad.xml 时出错：boom"]
        steps := [false, false, false] }) ∧
    (run "IMG" mixAnnDir mixImgDir).success = false := by
  constructor
  · have h := parse_failure_isolated.1 "IMG" 3 malState 1 "bad.xml" "x.jpg"
      "boom" rfl
    simpa using h
  · exact (parse_failure_isolated.2 "IMG" mixAnnDir mixImgDir
      [(1, "a.xml", "x.jpg")] [] 2 "b.xml" "y.png" "boom"
      (by decide) (by decide) rfl).1

/-- C6: once a pair's patch step succeeded, the two rename sub-steps are
independent.  The image directory after the pair equals the result of
the image rename applied to the image directory as it was before the
pair, whatever the metadata rename did; a failed metadata rename is
recorded as an error in the pair's final state; and rename failures
never terminate the batch --- for every matched-count run the terminal
message reports the full pair count. -/
theorem rename_substeps_independent :
    (∀ (imgP : String) (T : Nat) (s : RunState) (idx : Nat)
        (annFile imgFile : String) (d1 : Dir AnnContent),
      patchAnnFile imgP idx (imgExtOf imgFile) annFile s.ann = Except.ok d1 →
      (stepPair imgP T s (idx, annFile, imgFile)).img =
        (removeThenRename s.img imgFile (toString idx ++ imgExtOf imgFile)).1 ∧
      ((removeThenRename d1 annFile (toString idx ++ ".xml")).2 = false →
        renameAnnErrMsg annFile (renameFailMsg annFile (toString idx ++ ".xml"))
          ∈ (stepPair imgP T s (idx, annFile, imgFile)).errors)) ∧
    (∀ (imgP : String) (annD : Dir AnnContent) (imgD : Dir String),
      (annCandidates annD).length = (imgCandidates imgD).length →
      (run imgP annD imgD).message =
        finalMessage (numPairs annD imgD) (run imgP annD imgD).errors) := by
  constructor
  · intro imgP T s idx annFile imgFile d1 hp
    constructor
    · exact stepPair_img_of_ok imgP T s idx annFile imgFile d1 hp
    · intro hf
      rw [stepPair_patch_ok imgP T s idx annFile imgFile d1 hp]
      have hann : (emitOk T { s with ann := d1 } (patchLog annFile)).ann = d1 := by
        simp [emitOk]
      have herr := annRenamePhase_errors_fail T idx annFile
        (emitOk T { s with ann := d1 } (patchLog annFile)) (by rw [hann]; exact hf)
      obtain ⟨t, ht⟩ := imgRenamePhase_errors_mono T idx imgFile
        (annRenamePhase T idx annFile
          (emitOk T { s with ann := d1 } (patchLog annFile)))
      rw [ht, herr]
      simp
  · intro imgP annD imgD h
    rw [run_of_counts_eq imgP annD imgD h]

/-- Witness for C6: the self-named pair `("1.xml", "1.jpg")` at index 1,
where the metadata rename fails (its destination equals its source) yet
the image rename is still attempted, plus the mixed two-pair run. -/
theorem rename_substeps_independent_w :
    ((stepPair "IMG" 3 selfState (1, "1.xml", "1.jpg")).img =
      (removeThenRename selfState.img "1.jpg"
        (toString 1 ++ imgExtOf "1.jpg")).1 ∧
     renameAnnErrMsg "1.xml" (renameFailMsg "1.xml" (toString 1 ++ ".xml"))
       ∈ (stepPair "IMG" 3 selfState (1, "1.xml", "1.jpg")).errors) ∧
    (run "IMG" mixAnnDir mixImgDir).message =
      finalMessage (numPairs mixAnnDir mixImgDir)
        (run "IMG" mixAnnDir mixImgDir).errors := by
  have h1 := rename_substeps_independent.1 "IMG" 3 selfState 1 "1.xml" "1.jpg"
    [("1.xml", AnnContent.record ⟨some "1.jpg", some (pathJoin "IMG" "1.jpg"), []⟩)]
    rfl
  exact ⟨⟨h1.1, h1.2 (by decide)⟩,
    rename_substeps_independent.2 "IMG" mixAnnDir mixImgDir (by decide)⟩

/-- C7: for a run that passes the count check, the terminal success flag
is true exactly when no error was recorded; the message contains the
total pair count; each of the first five recorded error strings appears
verbatim inside the message; and when more than five errors occurred the
count of the remaining ones appears in the message as well. -/
theorem final_outcome_summary (imgP : String) (annD : Dir AnnContent)
    (imgD : Dir String)
    (h : (annCandidates annD).length = (imgCandidates imgD).length) :
    ((run imgP annD imgD).success = true ↔ (run imgP annD imgD).errors = []) ∧
    (∃ p q, (run imgP annD imgD).message =
      p ++ (toString (numPairs annD imgD) ++ q)) ∧
    (∀ e ∈ (run imgP annD imgD).errors.take 5,
      ∃ p q, (run imgP annD imgD).message = p ++ (e ++ q)) ∧
    (5 < (run imgP annD imgD).errors.length →
      ∃ p q, (run imgP annD imgD).message =
        p ++ (toString ((run imgP annD imgD).errors.length - 5) ++ q)) := by
  rw [run_of_counts_eq imgP annD imgD h]
  refine ⟨List.isEmpty_iff, finalMessage_contains_count _ _,
    finalMessage_contains_errors _ _, finalMessage_contains_rest _ _⟩

/-- Witness for C7 on the mixed two-pair run, one of whose errors is the
malformed `b.xml`. -/
theorem final_outcome_summary_w :
    ((run "IMG" mixAnnDir mixImgDir).success = true ↔
      (run "IMG" mixAnnDir mixImgDir).errors = []) ∧
    (∃ p q, (run "IMG" mixAnnDir mixImgDir).message =
      p ++ (toString (numPairs mixAnnDir mixImgDir) ++ q)) ∧
    (∃ p q, (run "IMG" mixAnnDir mixImgDir).message =
      p ++ ("更新标签 b.xml 时出错：boom" ++ q)) := by
  have h := final_outcome_summary "IMG" mixAnnDir mixImgDir (by decide)
  exact ⟨h.1, h.2.1, h.2.2.1 "更新标签 b.xml 时出错：boom" (by decide)⟩

/-- C10: for a matched-count run the emitted progress events are exactly
`(0, 3N), (1, 3N), ..., (k, 3N)` for some `k ≤ 3N`: the sequence starts
at `(0, 3N)`, every event keeps the total `3N`, consecutive events
increase the completed count by exactly one, and the final completed
count `k` is the number of successful sub-steps, that is, `3N` minus the
number of failed or skipped sub-steps. -/
theorem progress_event_sequence (imgP : String) (annD : Dir AnnContent)
    (imgD : Dir String)
    (h : (annCandidates annD).length = (imgCandidates imgD).length) :
    ∃ k, k ≤ totalStepsOf annD imgD ∧
      (run imgP annD imgD).events =
        (List.range (k + 1)).map (fun j => (j, totalStepsOf annD imgD)) ∧
      (run imgP annD imgD).steps.length = totalStepsOf annD imgD ∧
      k = (run imgP annD imgD).steps.count true ∧
      k + (run imgP annD imgD).steps.count false = totalStepsOf annD imgD := by
  rw [run_of_counts_eq imgP annD imgD h]
  obtain ⟨hev, hcnt⟩ := runLoop_progOK imgP (totalStepsOf annD imgD)
    (pairsOf annD imgD) (initState annD imgD) (initState_progOK annD imgD)
  have hlen := runLoop_steps_len imgP (totalStepsOf annD imgD)
    (pairsOf annD imgD) (initState annD imgD)
  have hlen' : (runLoop imgP (totalStepsOf annD imgD) (initState annD imgD)
      (pairsOf annD imgD)).steps.length = totalStepsOf annD imgD := by
    rw [hlen, pairsOf_length]
    simp [initState, totalStepsOf]
    omega
  have hcf := count_true_add_count_false
    (runLoop imgP (totalStepsOf annD imgD) (initState annD imgD)
      (pairsOf annD imgD)).steps
  refine ⟨(runLoop imgP (totalStepsOf annD imgD) (initState annD imgD)
    (pairsOf annD imgD)).progress, ?_, hev, hlen', hcnt.symm, ?_⟩
  · have hle := List.count_le_length true
      (runLoop imgP (totalStepsOf annD imgD) (initState annD imgD)
        (pairsOf annD imgD)).steps
    omega
  · show (runLoop imgP (totalStepsOf annD imgD) (initState annD imgD)
      (pairsOf annD imgD)).progress +
      (runLoop imgP (totalStepsOf annD imgD) (initState annD imgD)
        (pairsOf annD imgD)).steps.count false = totalStepsOf annD imgD
    omega

/-- Witness for C10 on the mixed two-pair run. -/
theorem progress_event_sequence_w :
    ∃ k, k ≤ totalStepsOf mixAnnDir mixImgDir ∧
      (run "IMG" mixAnnDir mixImgDir).events =
        (List.range (k + 1)).map (fun j => (j, totalStepsOf mixAnnDir mixImgDir)) ∧
      (run "IMG" mixAnnDir mixImgDir).steps.length =
        totalStepsOf mixAnnDir mixImgDir ∧
      k = (run "IMG" mixAnnDir mixImgDir).steps.count true ∧
      k + (run "IMG" mixAnnDir mixImgDir).steps.count false =
        totalStepsOf mixAnnDir mixImgDir :=
  progress_event_sequence "IMG" mixAnnDir mixImgDir (by decide)

end RangeDataset
